import Mathlib

/-!
Shallow embedding of `src/python/jittor/transform/transform.py`: an image
preprocessing library (crop, resize, flip, tensor conversion, mean/std
normalization) composed through a sequential `Compose` pipeline.

Modelling conventions:
* A decoded PIL image is a structure carrying its height, width, channel
  count and a row-major pixel grid (height x width x channels) of rational
  pixel values.  Python float arithmetic is idealized as exact arithmetic
  over `ℚ` (and over `ℝ` where `math.sqrt` / `math.exp` appear).
* Python's `round` (round-half-to-even on the exact value) is `pyRoundQ`
  on `ℚ` and `pyRoundR` on `ℝ`.
* Python `//` on integers is floor division, `Int.fdiv`.
* Randomness (`random.uniform`, `random.randint`, `np.random.randint`) is
  passed in explicitly: sampled values are oracle arguments, constrained in
  theorems only by the ranges the corresponding library calls guarantee.
* Exceptions (failed `assert`, numpy shape errors) are modelled by
  `Option`: `none` is a raised error.
-/

/-- Python `round` on an exact rational value: round half to even. -/
def pyRoundQ (x : ℚ) : ℤ :=
  if Int.fract x = 1/2 then (if ⌊x⌋ % 2 = 0 then ⌊x⌋ else ⌊x⌋ + 1) else round x

/-- Python `round` on an exact real value: round half to even. -/
noncomputable def pyRoundR (x : ℝ) : ℤ :=
  if Int.fract x = 1/2 then (if ⌊x⌋ % 2 = 0 then ⌊x⌋ else ⌊x⌋ + 1) else round x

/-- One pixel: the list of its channel values. -/
abbrev Px := List ℚ

/-- A decoded PIL image: spatial size, channel count (`1` for mode `L`,
`3` for RGB, ...) and the pixel grid in height x width x channels order. -/
structure PILImage where
  height : ℕ
  width : ℕ
  channels : ℕ
  px : List (List Px)
deriving DecidableEq

/-- Well-formedness of the pixel grid: rectangular, matching the declared
height, width and channel count. -/
def PILImage.WF (i : PILImage) : Prop :=
  i.px.length = i.height ∧
  ∀ row ∈ i.px, row.length = i.width ∧ ∀ p ∈ row, p.length = i.channels

instance (i : PILImage) : Decidable i.WF := by
  unfold PILImage.WF; infer_instance

/-- A Python `size` argument: a plain int, a pair `(a, b)`, or a
list/sequence holding a single int. -/
inductive PySize where
  | int (n : ℕ)
  | pair (a b : ℕ)
  | single (a : ℕ)
deriving DecidableEq

/-- Pixel lookup with PIL's zero padding outside the source bounds. -/
def PILImage.getPx (img : PILImage) (r c : ℤ) : Px :=
  if 0 ≤ r ∧ r < (img.height : ℤ) ∧ 0 ≤ c ∧ c < (img.width : ℤ) then
    (img.px.getD r.toNat []).getD c.toNat (List.replicate img.channels 0)
  else List.replicate img.channels 0

/-- Modelled from the spec: `F_pil.crop` (the backend of `transform.crop`,
whose source is not in the repository slice).  Per the spec, for any box
within the source bounds the output has exactly `(height, width)` spatial
dimensions; outside the bounds the behavior is backend-defined, modelled
here as PIL's zero padding. -/
def crop (img : PILImage) (top left height width : ℤ) : PILImage :=
  { height := height.toNat
    width := width.toNat
    channels := img.channels
    px := (List.range height.toNat).map fun y =>
      (List.range width.toNat).map fun x =>
        img.getPx (top + y) (left + x) }

/-- Modelled from the spec: `F_pil.hflip` (not in the repository slice)
flips the image horizontally, i.e. reverses each pixel row. -/
def hflip (img : PILImage) : PILImage :=
  { img with px := img.px.map List.reverse }

/-- Modelled from the spec: the resampling backend of `F_pil.resize` (not
in the repository slice) produces an image of exactly the requested
`(height, width)`; the interpolation kernel itself is out of scope in the
spec and is modelled as nearest sampling. -/
def resizeTo (img : PILImage) (oh ow : ℕ) : PILImage :=
  { height := oh
    width := ow
    channels := img.channels
    px := (List.range oh).map fun y =>
      (List.range ow).map fun x =>
        img.getPx (y * img.height / oh) (x * img.width / ow) }

/-- Modelled from the spec: `F_pil.resize` (not in the repository slice).
A pair is the explicit output `(height, width)`; a single int resizes the
shorter edge to that value preserving the aspect ratio; a length-1
sequence is read as a single int. -/
def resize (img : PILImage) (size : PySize) : PILImage :=
  match size with
  | .pair a b => resizeTo img a b
  | .int n =>
    if img.width ≤ img.height then
      resizeTo img (pyRoundQ ((n : ℚ) * img.height / img.width)).toNat n
    else
      resizeTo img n (pyRoundQ ((n : ℚ) * img.width / img.height)).toNat
  | .single n =>
    if img.width ≤ img.height then
      resizeTo img (pyRoundQ ((n : ℚ) * img.height / img.width)).toNat n
    else
      resizeTo img n (pyRoundQ ((n : ℚ) * img.width / img.height)).toNat

/-- `transform.crop_and_resize`: crop the box, then resize to `size`. -/
def crop_and_resize (img : PILImage) (top left height width : ℤ)
    (size : PySize) : PILImage :=
  resize (crop img top left height width) size

/-- The `output_size` normalization at the head of `transform.center_crop`:
an int or a singleton sequence is used for both axes. -/
def normCropSize : PySize → ℕ × ℕ
  | .int n => (n, n)
  | .single a => (a, a)
  | .pair a b => (a, b)

/-- A 3-dimensional numeric array (channels x height x width after the
`transpose((2, 0, 1))`, height x width x channels as decoded). -/
abbrev Chw := List (List (List ℚ))

/-- The result of `np.array(img)`: a 2-dimensional array for a
single-channel image, a 3-dimensional array otherwise. -/
inductive NpArr where
  | d2 (a : List (List ℚ))
  | d3 (a : Chw)
deriving DecidableEq

/-- `np.array(img)`: a mode-`L` (single-channel) image decodes to a
2-dimensional `(H, W)` array, any other mode to `(H, W, C)`. -/
def npArrayOf (img : PILImage) : NpArr :=
  if img.channels = 1 then .d2 (img.px.map fun row => row.map fun p => p.getD 0 0)
  else .d3 img.px

/-- Channel count of a decoded 3-dimensional array, read off the data. -/
def numChannels (g : Chw) : ℕ := ((g.getD 0 []).getD 0 []).length

/-- `transpose((2, 0, 1))` on a 3-dimensional `(H, W, C)` array:
the `(C, H, W)` array with `t[c][y][x] = g[y][x][c]`. -/
def transpose201 (g : Chw) : Chw :=
  (List.range (numChannels g)).map fun c =>
    g.map fun row => row.map fun p => p.getD c 0

/-- `np.array(img).transpose((2, 0, 1))`: numpy raises on a 2-dimensional
array (the axes do not match the array), modelled as `none`. -/
def transposed? (a : NpArr) : Option Chw :=
  match a with
  | .d2 _ => none
  | .d3 g => some (transpose201 g)

/-- Elementwise division of an array by `255` (`/ np.float32(255)`). -/
def scale255 (t : Chw) : Chw :=
  t.map fun pl => pl.map fun r => r.map fun v => v / 255

/-- A value flowing through the pipeline: a decoded image or a numeric
array. -/
inductive TVal where
  | img (i : PILImage)
  | arr (a : Chw)
deriving DecidableEq

/-- `transform.to_tensor`: an `Image.Image` becomes
`np.array(img).transpose((2, 0, 1)) / np.float32(255)`; any other input is
returned unchanged. -/
def to_tensor (v : TVal) : Option TVal :=
  match v with
  | .img i => (transposed? (npArrayOf i)).map fun t => .arr (scale255 t)
  | .arr a => some (.arr a)

/-- The per-channel value of a numpy `(k, 1, 1)`-shaped mean/std vector at
channel `c`: a length-1 vector broadcasts to every channel. -/
def chanVal (m : List ℚ) (c : ℕ) : ℚ :=
  if m.length = 1 then m.getD 0 0 else m.getD c 0

/-- Elementwise `(x - mean[c]) / std[c]` over the channels of a
`(C, H, W)` array, channel counter `c` running along the list. -/
def normChansGo (mean std : List ℚ) : ℕ → Chw → Chw
  | _, [] => []
  | c, pl :: rest =>
    (pl.map fun r => r.map fun x => (x - chanVal mean c) / chanVal std c) ::
      normChansGo mean std (c + 1) rest

/-- numpy broadcast of `(arr - mean) / std` for `arr : (C, H, W)` and
mean/std reshaped to `(k, 1, 1)` (as `ImageNormalize` does): valid when
`k = C` or `k = 1`, a shape error (`none`) otherwise. -/
def normChans (a : Chw) (mean std : List ℚ) : Option Chw :=
  if (mean.length = a.length ∨ mean.length = 1) ∧
     (std.length = a.length ∨ std.length = 1) then
    some (normChansGo mean std 0 a)
  else none

/-- `transform.image_normalize`: a raw `Image.Image` is decoded,
transposed to channel-first and normalized as
`(arr - mean * 255) / (std * 255)`; an already-converted array is
normalized as `(img - mean) / std`.  `mean`/`std` are the per-channel
vectors (broadcast as the `(k, 1, 1)` reshape of `ImageNormalize`). -/
def image_normalize (v : TVal) (mean std : List ℚ) : Option TVal :=
  match v with
  | .img i =>
    (transposed? (npArrayOf i)).bind fun t =>
      (normChans t (mean.map fun m => m * 255) (std.map fun s => s * 255)).map
        fun b => .arr b
  | .arr a => (normChans a mean std).map fun b => .arr b

/-- `transform.center_crop`: crop at
`top = round((image_height - crop_height) / 2)`,
`left = round((image_width - crop_width) / 2)`. -/
def center_crop (img : PILImage) (output_size : PySize) : PILImage :=
  crop img
    (pyRoundQ (((img.height : ℚ) - (normCropSize output_size).1) / 2))
    (pyRoundQ (((img.width : ℚ) - (normCropSize output_size).2) / 2))
    (normCropSize output_size).1 (normCropSize output_size).2

/-- `Compose.__call__`: thread the value through the transforms in list
order (`for t in self.transforms: data = t(data)`). -/
def Compose.call {α : Type} (transforms : List (α → α)) (data : α) : α :=
  transforms.foldl (fun d t => t d) data

/-- `Compose.__call__` with fallible stages: a stage that raises
(`Except.error`) aborts the loop and the error propagates to the caller
(no `try`/`except` in the source). -/
def Compose.callE {α ε : Type} (transforms : List (α → Except ε α))
    (data : α) : Except ε α :=
  transforms.foldlM (fun d t => t d) data

/-- `RandomHorizontalFlip.__call__` with the draw of `random.random()`
(a value in `[0, 1)`) passed explicitly: flip iff the draw is below `p`. -/
def RandomHorizontalFlip.call (p rand : ℚ) (img : PILImage) : PILImage :=
  if rand < p then hflip img else img

/-- `RandomCrop.__init__`: an int becomes `(size, size)`; anything that is
not a tuple then fails the `assert isinstance(size, tuple)`. -/
def RandomCrop.mk (size : PySize) : Option (ℕ × ℕ) :=
  match size with
  | .int n => some (n, n)
  | .pair a b => some (a, b)
  | .single _ => none

/-- `RandomCrop.__call__` with the two `np.random.randint` draws passed as
oracles `nI`/`nJ` (called as `nI 0 (high)`, `high` exclusive): assert the
crop fits, then crop at the drawn offsets. -/
def RandomCrop.call (size : ℕ × ℕ) (nI nJ : ℕ → ℕ → ℕ)
    (img : PILImage) : Option PILImage :=
  if size.1 ≤ img.height ∧ size.2 ≤ img.width then
    some (crop img (nI 0 (img.height - size.1 + 1))
      (nJ 0 (img.width - size.2 + 1)) size.1 size.2)
  else none

/-- The configuration a `RandomCropAndResize` holds after construction. -/
structure RCRConf where
  size : ℕ × ℕ
  scale : ℚ × ℚ
  ratio : ℚ × ℚ
deriving DecidableEq

/-- `RandomCropAndResize.__init__`: an int size becomes `(size, size)`; a
non-tuple fails `assert isinstance(size, tuple)`; the asserts
`scale[0] <= scale[1]` and `ratio[0] <= ratio[1]` must hold. -/
def RandomCropAndResize.mk (size : PySize) (scale rat : ℚ × ℚ) :
    Option RCRConf :=
  match size with
  | .int n =>
    if scale.1 ≤ scale.2 ∧ rat.1 ≤ rat.2 then
      some ⟨(n, n), scale, rat⟩
    else none
  | .pair a b =>
    if scale.1 ≤ scale.2 ∧ rat.1 ≤ rat.2 then
      some ⟨(a, b), scale, rat⟩
    else none
  | .single _ => none

/-- One trial's derived box: `target_area = u * area` with `u` the
`random.uniform(*scale)` draw, `aspect_ratio = exp(v)` with `v` the
`random.uniform(log(ratio[0]), log(ratio[1]))` draw, then
`w = round(sqrt(target_area * aspect_ratio))` and
`h = round(sqrt(target_area / aspect_ratio))`. -/
noncomputable def rcrDeriveWH (area u v : ℝ) : ℤ × ℤ :=
  (pyRoundR (Real.sqrt (u * area * Real.exp v)),
   pyRoundR (Real.sqrt (u * area / Real.exp v)))

/-- The acceptance test of a trial: `0 < w <= width and 0 < h <= height`. -/
def rcrFits (width height : ℕ) (wh : ℤ × ℤ) : Prop :=
  0 < wh.1 ∧ wh.1 ≤ (width : ℤ) ∧ 0 < wh.2 ∧ wh.2 ≤ (height : ℤ)

instance (width height : ℕ) (wh : ℤ × ℤ) :
    Decidable (rcrFits width height wh) := by
  unfold rcrFits; infer_instance

/-- The `for _ in range(10)` trial loop of
`RandomCropAndResize.__call__`: draw trial `k`, accept its box if it fits,
otherwise continue with the remaining fuel; `none` when every trial
failed (the loop's `else` branch). -/
noncomputable def rcrLoop (width height : ℕ) (area : ℝ)
    (uv : ℕ → ℝ × ℝ) : ℕ → ℕ → Option (ℤ × ℤ)
  | _, 0 => none
  | k, fuel + 1 =>
    if rcrFits width height (rcrDeriveWH area (uv k).1 (uv k).2) then
      some (rcrDeriveWH area (uv k).1 (uv k).2)
    else rcrLoop width height area uv (k + 1) fuel

/-- The `(w, h)` choice of the fallback (`else`) branch of the trial loop
in `RandomCropAndResize.__call__`, driven by `in_ratio = width / height`
against `min(ratio)` / `max(ratio)`. -/
def rcrFallbackWH (rat : ℚ × ℚ) (width height : ℕ) : ℤ × ℤ :=
  if (width : ℚ) / (height : ℚ) < min rat.1 rat.2 then
    ((width : ℤ), pyRoundQ ((width : ℚ) / min rat.1 rat.2))
  else if (width : ℚ) / (height : ℚ) > max rat.1 rat.2 then
    (pyRoundQ ((height : ℚ) * max rat.1 rat.2), (height : ℤ))
  else ((width : ℤ), (height : ℤ))

/-- The fallback central crop `(i, j, h, w)`: the fallback `(w, h)`
centered via Python floor division `// 2` in each axis. -/
def rcrFallback (rat : ℚ × ℚ) (width height : ℕ) : ℤ × ℤ × ℤ × ℤ :=
  (((height : ℤ) - (rcrFallbackWH rat width height).2).fdiv 2,
   ((width : ℤ) - (rcrFallbackWH rat width height).1).fdiv 2,
   (rcrFallbackWH rat width height).2,
   (rcrFallbackWH rat width height).1)

/-- The crop box `(i, j, h, w)` chosen by `RandomCropAndResize.__call__`:
the first of 10 trials that fits, placed at the `random.randint` offsets
(oracles `rI`/`rJ`, both bounds inclusive); if every trial fails, the
central fallback crop. -/
noncomputable def RandomCropAndResize.box (rat : ℚ × ℚ) (width height : ℕ)
    (uv : ℕ → ℝ × ℝ) (rI rJ : ℤ → ℤ → ℤ) : ℤ × ℤ × ℤ × ℤ :=
  match rcrLoop width height ((height : ℝ) * (width : ℝ)) uv 0 10 with
  | some (w, h) => (rI 0 ((height : ℤ) - h), rJ 0 ((width : ℤ) - w), h, w)
  | none => rcrFallback rat width height

/-- `RandomCropAndResize.__call__`: choose the crop box, then
`crop_and_resize` to the configured target size. -/
noncomputable def RandomCropAndResize.call (cfg : RCRConf)
    (uv : ℕ → ℝ × ℝ) (rI rJ : ℤ → ℤ → ℤ) (img : PILImage) : PILImage :=
  match RandomCropAndResize.box cfg.ratio img.width img.height uv rI rJ with
  | (i, j, h, w) => crop_and_resize img i j h w (.pair cfg.size.1 cfg.size.2)

/-- Element accessor for a `(C, H, W)` array (`0` outside the bounds). -/
def at3 (b : Chw) (c y x : ℕ) : ℚ := ((b.getD c []).getD y []).getD x 0

/-- Pixel value accessor for a decoded image (`0` outside the bounds). -/
def pxAt (i : PILImage) (y x c : ℕ) : ℚ :=
  ((i.px.getD y []).getD x []).getD c 0

theorem pyRoundQ_bounds (x : ℚ) :
    x - 1/2 ≤ (pyRoundQ x : ℚ) ∧ (pyRoundQ x : ℚ) ≤ x + 1/2 := by
  unfold pyRoundQ
  split
  case isTrue h =>
    rw [Int.fract] at h
    have hfl : (⌊x⌋ : ℚ) = x - 1/2 := by linarith
    split <;> push_cast <;> rw [hfl] <;> constructor <;> linarith
  case isFalse h =>
    have hb := abs_sub_round x
    rw [abs_le] at hb
    constructor <;> linarith [hb.1, hb.2]

theorem pyRoundR_bounds (x : ℝ) :
    x - 1/2 ≤ (pyRoundR x : ℝ) ∧ (pyRoundR x : ℝ) ≤ x + 1/2 := by
  unfold pyRoundR
  split
  case isTrue h =>
    rw [Int.fract] at h
    have hfl : (⌊x⌋ : ℝ) = x - 1/2 := by linarith
    split <;> push_cast <;> rw [hfl] <;> constructor <;> linarith
  case isFalse h =>
    have hb := abs_sub_round x
    rw [abs_le] at hb
    constructor <;> linarith [hb.1, hb.2]

theorem pyRoundR_intCast (n : ℤ) : pyRoundR (n : ℝ) = n := by
  unfold pyRoundR
  rw [Int.fract_intCast]
  norm_num

theorem list_getD_map {α β : Type} (f : α → β) (l : List α) (i : ℕ) (d : β)
    (h : i < l.length) : (l.map f).getD i d = f l[i] := by
  rw [List.getD_eq_getElem?_getD, List.getElem?_map, List.getElem?_eq_getElem h]
  rfl

theorem list_getD_range {n i : ℕ} (d : ℕ) (h : i < n) :
    (List.range n).getD i d = i := by
  rw [List.getD_eq_getElem?_getD, List.getElem?_range h]
  rfl

/-- C5: `Compose([t1, ..., tn])` applied to `x` returns
`tn(...(t2(t1(x)))...)`: the empty pipeline is the identity, a leading
transform is applied first, a trailing transform is applied last to the
result of the rest, and an error raised by any stage propagates unchanged
to the caller. -/
theorem C5_compose_threads_in_order :
    (∀ (α : Type) (x : α), Compose.call ([] : List (α → α)) x = x) ∧
    (∀ (α : Type) (t : α → α) (ts : List (α → α)) (x : α),
      Compose.call (t :: ts) x = Compose.call ts (t x)) ∧
    (∀ (α : Type) (ts : List (α → α)) (t : α → α) (x : α),
      Compose.call (ts ++ [t]) x = t (Compose.call ts x)) ∧
    (∀ (α ε : Type) (pre : List (α → Except ε α)) (t : α → Except ε α)
      (post : List (α → Except ε α)) (x d : α) (e : ε),
      Compose.callE pre x = Except.ok d → t d = Except.error e →
      Compose.callE (pre ++ t :: post) x = Except.error e) := by
  refine ⟨fun α x => rfl, fun α t ts x => rfl, ?_, ?_⟩
  · intro α ts t x
    simp [Compose.call, List.foldl_append]
  · intro α ε pre t post x d e hpre ht
    unfold Compose.callE at hpre ⊢
    rw [List.foldlM_append, hpre]
    show List.foldlM (fun d t => t d) d (t :: post) = Except.error e
    rw [List.foldlM_cons, ht]
    rfl

/-- Witness for C5: a three-stage pipeline whose middle stage fails
propagates that failure. -/
theorem C5_compose_threads_in_order_witness :
    Compose.callE
      ([fun n => Except.ok (n + 1)] ++
        (fun _ => Except.error 7) :: [fun n => Except.ok (n * 2)])
      (3 : ℕ) = Except.error 7 :=
  C5_compose_threads_in_order.2.2.2 ℕ ℕ [fun n => Except.ok (n + 1)]
    (fun _ => Except.error 7) [fun n => Except.ok (n * 2)] 3 4 7 rfl rfl

/-- C7: `RandomHorizontalFlip(p=1.0)` always returns `hflip(img)` and
`RandomHorizontalFlip(p=0.0)` always returns the image unchanged, for any
draw of `random.random()` in `[0, 1)`. -/
theorem C7_random_horizontal_flip_extremes :
    ∀ (img : PILImage) (r : ℚ), 0 ≤ r → r < 1 →
      RandomHorizontalFlip.call 1 r img = hflip img ∧
      RandomHorizontalFlip.call 0 r img = img := by
  intro img r h0 h1
  constructor
  · simp [RandomHorizontalFlip.call, h1]
  · simp [RandomHorizontalFlip.call, not_lt.mpr h0]

/-- Witness for C7 at a concrete 1x2 image and draw `1/2`. -/
theorem C7_random_horizontal_flip_extremes_witness :
    RandomHorizontalFlip.call 1 (1/2) ⟨1, 2, 1, [[[3], [4]]]⟩ =
      hflip ⟨1, 2, 1, [[[3], [4]]]⟩ ∧
    RandomHorizontalFlip.call 0 (1/2) ⟨1, 2, 1, [[[3], [4]]]⟩ =
      ⟨1, 2, 1, [[[3], [4]]]⟩ :=
  C7_random_horizontal_flip_extremes ⟨1, 2, 1, [[[3], [4]]]⟩ (1/2)
    (by norm_num) (by norm_num)

/-- C8: `center_crop(img, (h, w))` crops at `top = round((H - h) / 2)`
and `left = round((W - w) / 2)` (Python `round`, i.e. half-to-even on the
exact value), and the crop box has exactly `(h, w)` spatial dimensions. -/
theorem C8_center_crop_offsets :
    ∀ (img : PILImage) (h w : ℕ),
      center_crop img (.pair h w) =
        crop img (pyRoundQ (((img.height : ℚ) - h) / 2))
          (pyRoundQ (((img.width : ℚ) - w) / 2)) h w ∧
      (center_crop img (.pair h w)).height = h ∧
      (center_crop img (.pair h w)).width = w := by
  intro img h w
  refine ⟨rfl, ?_, ?_⟩ <;> simp [center_crop, crop, normCropSize]

/-- C4: `RandomCrop(size)` fails its assertion (raises, image unchanged)
when the image is smaller than `size` in either dimension; otherwise it
returns the crop at the drawn offsets, the output has exactly `size`
spatial dimensions, and the drawn top/left offsets lie in
`[0, H - h] x [0, W - w]` (the `np.random.randint` oracles return a value
in `[lo, hi)`). -/
theorem C4_random_crop :
    ∀ (size : ℕ × ℕ) (nI nJ : ℕ → ℕ → ℕ) (img : PILImage),
      ((img.height < size.1 ∨ img.width < size.2) →
        RandomCrop.call size nI nJ img = none) ∧
      (size.1 ≤ img.height → size.2 ≤ img.width →
        (∀ a b, a < b → a ≤ nI a b ∧ nI a b < b) →
        (∀ a b, a < b → a ≤ nJ a b ∧ nJ a b < b) →
        RandomCrop.call size nI nJ img =
          some (crop img (nI 0 (img.height - size.1 + 1))
            (nJ 0 (img.width - size.2 + 1)) size.1 size.2) ∧
        (∀ out, RandomCrop.call size nI nJ img = some out →
          out.height = size.1 ∧ out.width = size.2) ∧
        nI 0 (img.height - size.1 + 1) ≤ img.height - size.1 ∧
        nJ 0 (img.width - size.2 + 1) ≤ img.width - size.2) := by
  intro size nI nJ img
  constructor
  · intro hlt
    have hc : ¬ (size.1 ≤ img.height ∧ size.2 ≤ img.width) := by omega
    simp only [RandomCrop.call, if_neg hc]
  · intro h1 h2 hI hJ
    have hcall : RandomCrop.call size nI nJ img =
        some (crop img (nI 0 (img.height - size.1 + 1))
          (nJ 0 (img.width - size.2 + 1)) size.1 size.2) := by
      simp only [RandomCrop.call, if_pos (And.intro h1 h2)]
    refine ⟨hcall, ?_, ?_, ?_⟩
    · intro out hout
      rw [hcall] at hout
      cases hout
      simp [crop]
    · have := (hI 0 (img.height - size.1 + 1) (by omega)).2
      omega
    · have := (hJ 0 (img.width - size.2 + 1) (by omega)).2
      omega

/-- Witness for C4: a 1x1 crop of a 2x2 image with the oracle that
always draws the low bound succeeds and crops at `(0, 0)`. -/
theorem C4_random_crop_witness :
    RandomCrop.call (1, 1) (fun a _ => a) (fun a _ => a)
      ⟨2, 2, 1, [[[0], [0]], [[0], [0]]]⟩ =
      some (crop ⟨2, 2, 1, [[[0], [0]], [[0], [0]]]⟩ 0 0 1 1) :=
  ((C4_random_crop (1, 1) (fun a _ => a) (fun a _ => a)
      ⟨2, 2, 1, [[[0], [0]], [[0], [0]]]⟩).2 (by decide) (by decide)
    (fun a b h => ⟨Nat.le_refl a, h⟩)
    (fun a b h => ⟨Nat.le_refl a, h⟩)).1

theorem list_getD_lt {α : Type} (l : List α) (i : ℕ) (d : α)
    (h : i < l.length) : l.getD i d = l[i] := by
  rw [List.getD_eq_getElem?_getD, List.getElem?_eq_getElem h]
  rfl

theorem scale_transpose (g : Chw) :
    scale255 (transpose201 g) =
      (List.range (numChannels g)).map fun c =>
        g.map fun row => row.map fun p => p.getD c 0 / 255 := by
  simp [scale255, transpose201, List.map_map, Function.comp_def]

/-- C6: on a well-formed 3-channel image, `to_tensor` returns a
`(3, H, W)` array whose entry at `(c, y, x)` is the pixel value at
`(y, x, c)` divided by 255; any non-image input is returned unchanged. -/
theorem C6_to_tensor :
    (∀ (i : PILImage), i.WF → i.channels = 3 → 1 ≤ i.height → 1 ≤ i.width →
      ∃ b : Chw, to_tensor (.img i) = some (.arr b) ∧
        b.length = 3 ∧
        (∀ pl ∈ b, pl.length = i.height ∧ ∀ r ∈ pl, r.length = i.width) ∧
        (∀ c y x, c < 3 → y < i.height → x < i.width →
          at3 b c y x = pxAt i y x c / 255)) ∧
    (∀ a : Chw, to_tensor (.arr a) = some (.arr a)) := by
  constructor
  · intro i hwf hch hh hw
    have hpx : i.px.length = i.height := hwf.1
    have h0 : 0 < i.px.length := by omega
    have hne : npArrayOf i = .d3 i.px := by
      simp [npArrayOf, hch]
    have hrow0 := hwf.2 i.px[0] (i.px.getElem_mem h0)
    have h1 : 0 < i.px[0].length := by rw [hrow0.1]; omega
    have hC : numChannels i.px = 3 := by
      have hp := hrow0.2 i.px[0][0] (i.px[0].getElem_mem h1)
      unfold numChannels
      rw [list_getD_lt _ 0 _ h0, list_getD_lt _ 0 _ h1, hp, hch]
    refine ⟨scale255 (transpose201 i.px), ?_, ?_, ?_, ?_⟩
    · simp [to_tensor, hne, transposed?]
    · simp [scale255, transpose201, hC]
    · intro pl hpl
      rw [scale_transpose, hC] at hpl
      obtain ⟨c, _, rfl⟩ := List.mem_map.mp hpl
      refine ⟨by simp [hpx], ?_⟩
      intro r hr
      obtain ⟨row, hrow, rfl⟩ := List.mem_map.mp hr
      simp [(hwf.2 row hrow).1]
    · intro c y x hc hy hx
      have hy' : y < i.px.length := by omega
      have hxw := (hwf.2 i.px[y] (i.px.getElem_mem hy')).1
      have hx' : x < i.px[y].length := by omega
      unfold at3 pxAt
      rw [scale_transpose, hC]
      rw [list_getD_map _ _ c _ (by simpa using hc), List.getElem_range]
      rw [list_getD_map _ _ y _ hy']
      rw [list_getD_map _ _ x _ hx']
      rw [list_getD_lt _ y _ hy', list_getD_lt _ x _ hx']
  · intro a
    rfl

/-- Witness for C6: an all-255 1x1 RGB image maps to the all-ones
`(3, 1, 1)` array. -/
theorem C6_to_tensor_witness :
    ∃ b : Chw,
      to_tensor (.img ⟨1, 1, 3, [[[255, 255, 255]]]⟩) = some (.arr b) ∧
      b.length = 3 ∧
      (∀ pl ∈ b, pl.length = 1 ∧ ∀ r ∈ pl, r.length = 1) ∧
      (∀ c y x, c < 3 → y < 1 → x < 1 →
        at3 b c y x = pxAt ⟨1, 1, 3, [[[255, 255, 255]]]⟩ y x c / 255) :=
  C6_to_tensor.1 ⟨1, 1, 3, [[[255, 255, 255]]]⟩ (by decide) rfl
    (by decide) (by decide)

theorem getD_map_mul (m : List ℚ) (k : ℚ) (c : ℕ) :
    (m.map fun v => v * k).getD c 0 = m.getD c 0 * k := by
  induction m generalizing c with
  | nil => simp
  | cons a t ih =>
    cases c with
    | zero => simp
    | succ n => simpa using ih n

theorem chanVal_map_mul (m : List ℚ) (k : ℚ) (c : ℕ) :
    chanVal (m.map fun v => v * k) c = chanVal m c * k := by
  unfold chanVal
  rw [List.length_map]
  split
  · exact getD_map_mul m k 0
  · exact getD_map_mul m k c

theorem norm_scale_eq (x m s : ℚ) :
    (x - m * 255) / (s * 255) = (x / 255 - m) / s := by
  rcases eq_or_ne s 0 with h | h
  · simp [h]
  · field_simp
    ring

theorem normChansGo_scale (mean std : List ℚ) (t : Chw) (c : ℕ) :
    normChansGo (mean.map fun v => v * 255) (std.map fun v => v * 255) c t =
      normChansGo mean std c (scale255 t) := by
  induction t generalizing c with
  | nil => rfl
  | cons pl rest ih =>
    show _ :: _ = _ :: _
    refine congrArg₂ _ ?_ (ih (c + 1))
    simp only [List.map_map, Function.comp_def, chanVal_map_mul]
    refine congrArg (fun f => List.map f pl) ?_
    funext r
    refine congrArg (fun f => List.map f r) ?_
    funext x
    exact norm_scale_eq x (chanVal mean c) (chanVal std c)

theorem normChans_scale (t : Chw) (mean std : List ℚ) :
    normChans t (mean.map fun v => v * 255) (std.map fun v => v * 255) =
      normChans (scale255 t) mean std := by
  unfold normChans scale255
  simp only [List.length_map]
  split
  · rw [show (List.map _ t) = scale255 t from rfl, ← normChansGo_scale]
  · rfl

theorem normChansGo_length (mean std : List ℚ) (a : Chw) (c : ℕ) :
    (normChansGo mean std c a).length = a.length := by
  induction a generalizing c with
  | nil => rfl
  | cons pl rest ih => simpa [normChansGo] using ih (c + 1)

theorem normChansGo_getD (mean std : List ℚ) (a : Chw) (c0 c : ℕ)
    (h : c < a.length) :
    (normChansGo mean std c0 a).getD c [] =
      (a.getD c []).map fun r => r.map fun x =>
        (x - chanVal mean (c0 + c)) / chanVal std (c0 + c) := by
  induction a generalizing c0 c with
  | nil => simp at h
  | cons pl rest ih =>
    cases c with
    | zero => simp [normChansGo]
    | succ n =>
      have hn : n < rest.length := by simpa using h
      have := ih c0.succ n hn
      simp only [normChansGo, List.getD_cons_succ, this]
      rw [show c0.succ + n = c0 + (n + 1) by omega]

theorem normChansGo_id (mean std : List ℚ) (a : Chw) (c : ℕ)
    (h : ∀ k, k < a.length → chanVal mean (c + k) = 0 ∧
      chanVal std (c + k) = 1) :
    normChansGo mean std c a = a := by
  induction a generalizing c with
  | nil => rfl
  | cons pl rest ih =>
    have h0 := h 0 (by simp)
    rw [Nat.add_zero] at h0
    show _ :: _ = _ :: _
    refine congrArg₂ _ ?_ ?_
    · simp [h0.1, h0.2]
    · refine ih (c + 1) fun k hk => ?_
      have := h (k + 1) (by simpa using Nat.succ_lt_succ hk)
      rwa [show c + (k + 1) = c + 1 + k by omega] at this

/-- C1: `image_normalize` on an already-converted `(C, H, W)` array is the
per-channel `(img - mean) / std` (so `mean = [0,0,0]`, `std = [1,1,1]` is
the identity on a 3-channel array); on a raw image it equals converting
the image to the scaled array first (`to_tensor`) and then normalizing
with the same mean/std, the internal computation using `mean * 255` and
`std * 255` against the unscaled 0-255 pixel array. -/
theorem C1_image_normalize :
    (∀ a : Chw, a.length = 3 →
      image_normalize (.arr a) [0, 0, 0] [1, 1, 1] = some (.arr a)) ∧
    (∀ (a : Chw) (mean std : List ℚ) (b : Chw),
      image_normalize (.arr a) mean std = some (.arr b) →
      b.length = a.length ∧
      ∀ c, c < a.length →
        b.getD c [] = (a.getD c []).map fun r => r.map fun x =>
          (x - chanVal mean c) / chanVal std c) ∧
    (∀ (i : PILImage) (mean std : List ℚ),
      image_normalize (.img i) mean std =
        (to_tensor (.img i)).bind fun t => image_normalize t mean std) := by
  refine ⟨?_, ?_, ?_⟩
  · intro a ha
    have hid : normChansGo [0, 0, 0] [1, 1, 1] 0 a = a := by
      refine normChansGo_id _ _ a 0 fun k hk => ?_
      rw [ha] at hk
      rw [Nat.zero_add]
      interval_cases k <;> exact ⟨rfl, rfl⟩
    simp [image_normalize, normChans, ha, hid]
  · intro a mean std b hb
    simp only [image_normalize, normChans] at hb
    split at hb
    · rw [Option.map_some'] at hb
      injection hb with hb
      injection hb with hb
      subst hb
      exact ⟨normChansGo_length _ _ _ _, fun c hc => by
        simpa using normChansGo_getD mean std a 0 c hc⟩
    · exact absurd hb (by simp)
  · intro i mean std
    by_cases h1 : i.channels = 1
    · simp [image_normalize, to_tensor, npArrayOf, h1, transposed?]
    · simp only [image_normalize, to_tensor, npArrayOf, if_neg h1, transposed?]
      simp only [Option.map_some', Option.some_bind]
      rw [normChans_scale]

/-- Witness for C1: the identity normalization on a concrete 3-channel
array. -/
theorem C1_image_normalize_witness :
    image_normalize (.arr [[[2]], [[4]], [[6]]]) [0, 0, 0] [1, 1, 1] =
      some (.arr [[[2]], [[4]], [[6]]]) :=
  C1_image_normalize.1 [[[2]], [[4]], [[6]]] rfl

/-- C10: `to_tensor` and the raw-image path of `image_normalize` raise
(from `transpose((2, 0, 1))` on a 2-dimensional decode) on every
single-channel image, and succeed on images that decode to 3 dimensions. -/
theorem C10_channel_first_requires_3d :
    ∀ (i : PILImage) (mean std : List ℚ),
      (i.channels = 1 →
        to_tensor (.img i) = none ∧
        image_normalize (.img i) mean std = none) ∧
      (i.channels ≠ 1 → (to_tensor (.img i)).isSome = true) ∧
      (i.channels ≠ 1 → mean.length = 1 → std.length = 1 →
        (image_normalize (.img i) mean std).isSome = true) := by
  intro i mean std
  refine ⟨?_, ?_, ?_⟩
  · intro h1
    constructor <;> simp [to_tensor, image_normalize, npArrayOf, h1, transposed?]
  · intro h1
    simp [to_tensor, npArrayOf, h1, transposed?]
  · intro h1 hm hs
    simp [image_normalize, npArrayOf, h1, transposed?, normChans,
      List.length_map, hm, hs]

/-- Witness for C10: a single-channel 1x1 image makes both operations
raise. -/
theorem C10_channel_first_requires_3d_witness :
    to_tensor (.img ⟨1, 1, 1, [[[7]]]⟩) = none ∧
    image_normalize (.img ⟨1, 1, 1, [[[7]]]⟩) [1] [2] = none :=
  (C10_channel_first_requires_3d ⟨1, 1, 1, [[[7]]]⟩ [1] [2]).1 rfl

theorem sqrt_eval {a b : ℝ} (hb : 0 ≤ b) (h : b * b = a) :
    Real.sqrt a = b := by
  rw [← h]
  exact Real.sqrt_mul_self hb

theorem pyRoundR_eval {x : ℝ} {n : ℤ} (h : x = (n : ℝ)) : pyRoundR x = n := by
  rw [h, pyRoundR_intCast]

theorem fdiv2_bounds (n : ℤ) (hn : 0 ≤ n) :
    0 ≤ n.fdiv 2 ∧ n.fdiv 2 ≤ n := by
  rw [Int.fdiv_eq_ediv n (by norm_num)]
  exact ⟨Int.ediv_nonneg hn (by norm_num), Int.ediv_le_self 2 hn⟩

theorem rcrLoop_isSome_fits (width height : ℕ) (area : ℝ)
    (uv : ℕ → ℝ × ℝ) :
    ∀ (fuel k : ℕ) (wh : ℤ × ℤ),
      rcrLoop width height area uv k fuel = some wh →
      rcrFits width height wh := by
  intro fuel
  induction fuel with
  | zero =>
    intro k wh h
    exact absurd h (by simp [rcrLoop])
  | succ n ih =>
    intro k wh h
    unfold rcrLoop at h
    split at h
    case isTrue hf =>
      injection h with h
      subst h
      exact hf
    case isFalse hf =>
      exact ih (k + 1) wh h

theorem rcrLoop_none_of_all_fail (width height : ℕ) (area : ℝ)
    (uv : ℕ → ℝ × ℝ) :
    ∀ (fuel k : ℕ),
      (∀ m, m < fuel → ¬ rcrFits width height
        (rcrDeriveWH area (uv (k + m)).1 (uv (k + m)).2)) →
      rcrLoop width height area uv k fuel = none := by
  intro fuel
  induction fuel with
  | zero => intro k _; rfl
  | succ n ih =>
    intro k h
    unfold rcrLoop
    rw [if_neg (by simpa using h 0 (Nat.succ_pos n))]
    refine ih (k + 1) fun m hm => ?_
    have := h (m + 1) (by omega)
    rwa [show k + (m + 1) = k + 1 + m by omega] at this

theorem rcrLoop_first_fit (width height : ℕ) (area : ℝ)
    (uv : ℕ → ℝ × ℝ) :
    ∀ (fuel k m : ℕ), m < fuel →
      rcrFits width height
        (rcrDeriveWH area (uv (k + m)).1 (uv (k + m)).2) →
      (∀ m', m' < m → ¬ rcrFits width height
        (rcrDeriveWH area (uv (k + m')).1 (uv (k + m')).2)) →
      rcrLoop width height area uv k fuel =
        some (rcrDeriveWH area (uv (k + m)).1 (uv (k + m)).2) := by
  intro fuel
  induction fuel with
  | zero => intro k m hm _ _; exact absurd hm (Nat.not_lt_zero m)
  | succ n ih =>
    intro k m hm hfit hbefore
    cases m with
    | zero =>
      unfold rcrLoop
      rw [if_pos (by simpa using hfit)]
      simp
    | succ m' =>
      unfold rcrLoop
      rw [if_neg (by simpa using hbefore 0 (Nat.succ_pos m'))]
      have hres := ih (k + 1) m' (by omega)
        (by rwa [show k + 1 + m' = k + (m' + 1) by omega])
        (fun m'' hm'' => by
          have := hbefore (m'' + 1) (by omega)
          rwa [show k + (m'' + 1) = k + 1 + m'' by omega] at this)
      rw [hres, show k + 1 + m' = k + (m' + 1) by omega]

theorem rcrFallback_low (rat : ℚ × ℚ) (width height : ℕ)
    (h : (width : ℚ) / (height : ℚ) < min rat.1 rat.2) :
    rcrFallback rat width height =
      (((height : ℤ) - pyRoundQ ((width : ℚ) / min rat.1 rat.2)).fdiv 2, 0,
        pyRoundQ ((width : ℚ) / min rat.1 rat.2), (width : ℤ)) := by
  have hwh : rcrFallbackWH rat width height =
      ((width : ℤ), pyRoundQ ((width : ℚ) / min rat.1 rat.2)) := by
    unfold rcrFallbackWH
    rw [if_pos h]
  unfold rcrFallback
  rw [hwh]
  dsimp only
  rw [sub_self, Int.zero_fdiv]

theorem rcrFallback_high (rat : ℚ × ℚ) (width height : ℕ)
    (h : (width : ℚ) / (height : ℚ) > max rat.1 rat.2) :
    rcrFallback rat width height =
      (0, ((width : ℤ) - pyRoundQ ((height : ℚ) * max rat.1 rat.2)).fdiv 2,
        (height : ℤ), pyRoundQ ((height : ℚ) * max rat.1 rat.2)) := by
  have hwh : rcrFallbackWH rat width height =
      (pyRoundQ ((height : ℚ) * max rat.1 rat.2), (height : ℤ)) := by
    unfold rcrFallbackWH
    rw [if_neg (not_lt.mpr (le_of_lt (lt_of_le_of_lt (min_le_max) h))),
      if_pos h]
  unfold rcrFallback
  rw [hwh]
  dsimp only
  rw [sub_self, Int.zero_fdiv]

theorem rcrFallback_mid (rat : ℚ × ℚ) (width height : ℕ)
    (h1 : ¬ (width : ℚ) / (height : ℚ) < min rat.1 rat.2)
    (h2 : ¬ (width : ℚ) / (height : ℚ) > max rat.1 rat.2) :
    rcrFallback rat width height = (0, 0, (height : ℤ), (width : ℤ)) := by
  have hwh : rcrFallbackWH rat width height =
      ((width : ℤ), (height : ℤ)) := by
    unfold rcrFallbackWH
    rw [if_neg h1, if_neg h2]
  unfold rcrFallback
  rw [hwh]
  dsimp only
  rw [sub_self, Int.zero_fdiv, sub_self, Int.zero_fdiv]

/-- C2: each of the 10 trials derives its box as
`w = round(sqrt(target_area * aspect_ratio))`,
`h = round(sqrt(target_area / aspect_ratio))` with
`target_area = u * area` and `aspect_ratio = exp(v)` (the draws `u`, `v`
of `random.uniform` over the scale range and the log-ratio range); the
first trial whose box fits is placed at the `random.randint` offsets; if
all 10 trials fail, the deterministic central fallback is used: below the
minimum ratio, full width with height derived from the minimum ratio;
above the maximum, full height with width derived from the maximum ratio;
otherwise the full image — centered by floor halving in each axis. -/
theorem C2_rcr_trials_and_fallback :
    (∀ area u v : ℝ, rcrDeriveWH area u v =
      (pyRoundR (Real.sqrt (u * area * Real.exp v)),
       pyRoundR (Real.sqrt (u * area / Real.exp v)))) ∧
    (∀ (rat : ℚ × ℚ) (width height : ℕ) (uv : ℕ → ℝ × ℝ)
      (rI rJ : ℤ → ℤ → ℤ) (k : ℕ), k < 10 →
      rcrFits width height
        (rcrDeriveWH ((height : ℝ) * (width : ℝ)) (uv k).1 (uv k).2) →
      (∀ m, m < k → ¬ rcrFits width height
        (rcrDeriveWH ((height : ℝ) * (width : ℝ)) (uv m).1 (uv m).2)) →
      RandomCropAndResize.box rat width height uv rI rJ =
        (rI 0 ((height : ℤ) -
            (rcrDeriveWH ((height : ℝ) * (width : ℝ)) (uv k).1 (uv k).2).2),
         rJ 0 ((width : ℤ) -
            (rcrDeriveWH ((height : ℝ) * (width : ℝ)) (uv k).1 (uv k).2).1),
         (rcrDeriveWH ((height : ℝ) * (width : ℝ)) (uv k).1 (uv k).2).2,
         (rcrDeriveWH ((height : ℝ) * (width : ℝ)) (uv k).1 (uv k).2).1)) ∧
    (∀ (rat : ℚ × ℚ) (width height : ℕ) (uv : ℕ → ℝ × ℝ)
      (rI rJ : ℤ → ℤ → ℤ),
      (∀ m, m < 10 → ¬ rcrFits width height
        (rcrDeriveWH ((height : ℝ) * (width : ℝ)) (uv m).1 (uv m).2)) →
      RandomCropAndResize.box rat width height uv rI rJ =
        rcrFallback rat width height) ∧
    (∀ (rat : ℚ × ℚ) (width height : ℕ),
      ((width : ℚ) / (height : ℚ) < min rat.1 rat.2 →
        rcrFallback rat width height =
          (((height : ℤ) - pyRoundQ ((width : ℚ) / min rat.1 rat.2)).fdiv 2,
            0, pyRoundQ ((width : ℚ) / min rat.1 rat.2), (width : ℤ))) ∧
      ((width : ℚ) / (height : ℚ) > max rat.1 rat.2 →
        rcrFallback rat width height =
          (0,
            ((width : ℤ) - pyRoundQ ((height : ℚ) * max rat.1 rat.2)).fdiv 2,
            (height : ℤ), pyRoundQ ((height : ℚ) * max rat.1 rat.2))) ∧
      (¬ (width : ℚ) / (height : ℚ) < min rat.1 rat.2 →
        ¬ (width : ℚ) / (height : ℚ) > max rat.1 rat.2 →
        rcrFallback rat width height =
          (0, 0, (height : ℤ), (width : ℤ)))) := by
  refine ⟨fun area u v => rfl, ?_, ?_, ?_⟩
  · intro rat width height uv rI rJ k hk hfit hbefore
    unfold RandomCropAndResize.box
    have hloop := rcrLoop_first_fit width height
      ((height : ℝ) * (width : ℝ)) uv 10 0 k hk
      (by rwa [Nat.zero_add]) (fun m' hm' => by
        rw [Nat.zero_add]; exact hbefore m' hm')
    rw [Nat.zero_add] at hloop
    rw [hloop]
  · intro rat width height uv rI rJ hall
    unfold RandomCropAndResize.box
    rw [rcrLoop_none_of_all_fail width height _ uv 10 0
      (fun m hm => by rw [Nat.zero_add]; exact hall m hm)]
  · intro rat width height
    exact ⟨rcrFallback_low rat width height,
      rcrFallback_high rat width height,
      rcrFallback_mid rat width height⟩

/-- Witness for C2: on a 1x1 image with every trial drawing `u = 9`,
`v = 0`, each derived box is 3x3 and fails to fit, so the fallback
central crop (the full 1x1 image here) is used. -/
theorem C2_rcr_trials_and_fallback_witness :
    RandomCropAndResize.box (3/4, 4/3) 1 1 (fun _ => (9, 0))
      (fun a _ => a) (fun a _ => a) = (0, 0, 1, 1) := by
  have h1 : rcrDeriveWH (((1 : ℕ) : ℝ) * ((1 : ℕ) : ℝ)) 9 0 = (3, 3) := by
    have harg1 : (9 : ℝ) * (((1 : ℕ) : ℝ) * ((1 : ℕ) : ℝ)) * Real.exp 0 = 9 := by
      rw [Real.exp_zero]; norm_num
    have harg2 : (9 : ℝ) * (((1 : ℕ) : ℝ) * ((1 : ℕ) : ℝ)) / Real.exp 0 = 9 := by
      rw [Real.exp_zero]; norm_num
    unfold rcrDeriveWH
    rw [harg1, harg2, sqrt_eval (by norm_num) (by norm_num : (3 : ℝ) * 3 = 9),
      pyRoundR_eval (by norm_num : (3 : ℝ) = ((3 : ℤ) : ℝ))]
  have hfail : ∀ m, m < 10 → ¬ rcrFits 1 1
      (rcrDeriveWH (((1 : ℕ) : ℝ) * ((1 : ℕ) : ℝ))
        ((fun _ : ℕ => ((9 : ℝ), (0 : ℝ))) m).1
        ((fun _ : ℕ => ((9 : ℝ), (0 : ℝ))) m).2) := by
    intro m _
    dsimp only
    rw [h1]
    decide
  have hbox := C2_rcr_trials_and_fallback.2.2.1 (3/4, 4/3) 1 1
    (fun _ => (9, 0)) (fun a _ => a) (fun a _ => a) hfail
  rw [hbox, rcrFallback_mid (3/4, 4/3) 1 1 (by norm_num) (by norm_num)]
  norm_num

/-- C3: `RandomCropAndResize` always returns an image of exactly the
configured target size, on every trial outcome including the fallback
path; an int `size` is normalized to `(size, size)` at construction. -/
theorem C3_rcr_output_size :
    (∀ (cfg : RCRConf) (uv : ℕ → ℝ × ℝ) (rI rJ : ℤ → ℤ → ℤ)
      (img : PILImage),
      (RandomCropAndResize.call cfg uv rI rJ img).height = cfg.size.1 ∧
      (RandomCropAndResize.call cfg uv rI rJ img).width = cfg.size.2) ∧
    (∀ (n : ℕ) (scale rat : ℚ × ℚ) (cfg : RCRConf),
      RandomCropAndResize.mk (.int n) scale rat = some cfg →
      cfg.size = (n, n)) := by
  constructor
  · intro cfg uv rI rJ img
    unfold RandomCropAndResize.call
    obtain ⟨i, j, h, w⟩ :=
      RandomCropAndResize.box cfg.ratio img.width img.height uv rI rJ
    exact ⟨rfl, rfl⟩
  · intro n scale rat cfg hmk
    simp only [RandomCropAndResize.mk] at hmk
    split at hmk
    · injection hmk with hmk
      rw [← hmk]
    · exact absurd hmk (by simp)

/-- Witness for C3: constructing with int size 2 yields target `(2, 2)`. -/
theorem C3_rcr_output_size_witness :
    ({ size := (2, 2), scale := (0, 1), ratio := (3/4, 4/3) } : RCRConf).size
      = (2, 2) :=
  C3_rcr_output_size.2 2 (0, 1) (3/4, 4/3)
    { size := (2, 2), scale := (0, 1), ratio := (3/4, 4/3) }
    (by norm_num [RandomCropAndResize.mk])

/-- C9: for any source image with positive dimensions and any valid
configuration, the crop box chosen by `RandomCropAndResize` lies within
the source bounds on both the trial-success path and the fallback path:
`0 ≤ i`, `i + h ≤ height`, `0 ≤ j`, `j + w ≤ width`. -/
theorem C9_box_within_bounds :
    ∀ (rat : ℚ × ℚ) (width height : ℕ) (uv : ℕ → ℝ × ℝ)
      (rI rJ : ℤ → ℤ → ℤ),
      1 ≤ width → 1 ≤ height → 0 < rat.1 → rat.1 ≤ rat.2 →
      (∀ a b : ℤ, a ≤ b → a ≤ rI a b ∧ rI a b ≤ b) →
      (∀ a b : ℤ, a ≤ b → a ≤ rJ a b ∧ rJ a b ≤ b) →
      0 ≤ (RandomCropAndResize.box rat width height uv rI rJ).1 ∧
      (RandomCropAndResize.box rat width height uv rI rJ).1 +
        (RandomCropAndResize.box rat width height uv rI rJ).2.2.1 ≤
        (height : ℤ) ∧
      0 ≤ (RandomCropAndResize.box rat width height uv rI rJ).2.1 ∧
      (RandomCropAndResize.box rat width height uv rI rJ).2.1 +
        (RandomCropAndResize.box rat width height uv rI rJ).2.2.2 ≤
        (width : ℤ) := by
  intro rat width height uv rI rJ hw hh hr1 hr12 hI hJ
  have hH0 : (0 : ℚ) < (height : ℚ) := by exact_mod_cast hh
  have hr0 : (0 : ℚ) < min rat.1 rat.2 :=
    lt_min hr1 (lt_of_lt_of_le hr1 hr12)
  cases hloop : rcrLoop width height ((height : ℝ) * (width : ℝ)) uv 0 10 with
  | some wh =>
    obtain ⟨w, h⟩ := wh
    have hbox : RandomCropAndResize.box rat width height uv rI rJ =
        (rI 0 ((height : ℤ) - h), rJ 0 ((width : ℤ) - w), h, w) := by
      unfold RandomCropAndResize.box
      rw [hloop]
    obtain ⟨hw0, hwW, hh0, hhH⟩ :=
      rcrLoop_isSome_fits width height _ uv 10 0 _ hloop
    rw [hbox]
    dsimp only
    obtain ⟨hIl, hIu⟩ := hI 0 ((height : ℤ) - h) (by omega)
    obtain ⟨hJl, hJu⟩ := hJ 0 ((width : ℤ) - w) (by omega)
    refine ⟨hIl, by omega, hJl, by omega⟩
  | none =>
    have hbox : RandomCropAndResize.box rat width height uv rI rJ =
        rcrFallback rat width height := by
      unfold RandomCropAndResize.box
      rw [hloop]
    rw [hbox]
    by_cases hc1 : (width : ℚ) / (height : ℚ) < min rat.1 rat.2
    · rw [rcrFallback_low rat width height hc1]
      dsimp only
      have hlt : (width : ℚ) / min rat.1 rat.2 < (height : ℚ) := by
        rw [div_lt_iff₀ hr0]
        calc (width : ℚ) < min rat.1 rat.2 * (height : ℚ) :=
              (div_lt_iff₀ hH0).mp hc1
          _ = (height : ℚ) * min rat.1 rat.2 := mul_comm _ _
      have hpb := (pyRoundQ_bounds ((width : ℚ) / min rat.1 rat.2)).2
      have hple : pyRoundQ ((width : ℚ) / min rat.1 rat.2) ≤ (height : ℤ) := by
        have hq : ((pyRoundQ ((width : ℚ) / min rat.1 rat.2) : ℤ) : ℚ) <
            (((height : ℤ) + 1 : ℤ) : ℚ) := by
          push_cast
          linarith
        have hz : pyRoundQ ((width : ℚ) / min rat.1 rat.2) <
            (height : ℤ) + 1 := by exact_mod_cast hq
        omega
      obtain ⟨hfl, hfu⟩ :=
        fdiv2_bounds ((height : ℤ) - pyRoundQ ((width : ℚ) / min rat.1 rat.2))
          (by omega)
      refine ⟨hfl, by omega, le_refl 0, by omega⟩
    · by_cases hc2 : (width : ℚ) / (height : ℚ) > max rat.1 rat.2
      · rw [rcrFallback_high rat width height hc2]
        dsimp only
        have hlt : (height : ℚ) * max rat.1 rat.2 < (width : ℚ) := by
          calc (height : ℚ) * max rat.1 rat.2
              = max rat.1 rat.2 * (height : ℚ) := mul_comm _ _
            _ < (width : ℚ) := (lt_div_iff₀ hH0).mp hc2
        have hpb := (pyRoundQ_bounds ((height : ℚ) * max rat.1 rat.2)).2
        have hple : pyRoundQ ((height : ℚ) * max rat.1 rat.2) ≤
            (width : ℤ) := by
          have hq : ((pyRoundQ ((height : ℚ) * max rat.1 rat.2) : ℤ) : ℚ) <
              (((width : ℤ) + 1 : ℤ) : ℚ) := by
            push_cast
            linarith
          have hz : pyRoundQ ((height : ℚ) * max rat.1 rat.2) <
              (width : ℤ) + 1 := by exact_mod_cast hq
          omega
        obtain ⟨hfl, hfu⟩ := fdiv2_bounds
          ((width : ℤ) - pyRoundQ ((height : ℚ) * max rat.1 rat.2))
          (by omega)
        refine ⟨le_refl 0, by omega, hfl, by omega⟩
      · rw [rcrFallback_mid rat width height hc1 hc2]
        dsimp only
        refine ⟨le_refl 0, by omega, le_refl 0, by omega⟩

/-- Witness for C9: a 4x4 image with the default ratio range, the
constant draw `u = 1`, `v = 0` and low-bound randint oracles. -/
theorem C9_box_within_bounds_witness :
    0 ≤ (RandomCropAndResize.box (3/4, 4/3) 4 4 (fun _ => (1, 0))
        (fun a _ => a) (fun a _ => a)).1 ∧
    (RandomCropAndResize.box (3/4, 4/3) 4 4 (fun _ => (1, 0))
        (fun a _ => a) (fun a _ => a)).1 +
      (RandomCropAndResize.box (3/4, 4/3) 4 4 (fun _ => (1, 0))
        (fun a _ => a) (fun a _ => a)).2.2.1 ≤ ((4 : ℕ) : ℤ) ∧
    0 ≤ (RandomCropAndResize.box (3/4, 4/3) 4 4 (fun _ => (1, 0))
        (fun a _ => a) (fun a _ => a)).2.1 ∧
    (RandomCropAndResize.box (3/4, 4/3) 4 4 (fun _ => (1, 0))
        (fun a _ => a) (fun a _ => a)).2.1 +
      (RandomCropAndResize.box (3/4, 4/3) 4 4 (fun _ => (1, 0))
        (fun a _ => a) (fun a _ => a)).2.2.2 ≤ ((4 : ℕ) : ℤ) :=
  C9_box_within_bounds (3/4, 4/3) 4 4 (fun _ => (1, 0))
    (fun a _ => a) (fun a _ => a) (by decide) (by decide) (by norm_num)
    (by norm_num) (fun a b hab => ⟨le_refl a, hab⟩)
    (fun a b hab => ⟨le_refl a, hab⟩)
